import Mathlib

/-!
Verification of the `jsontrim` Go package (file `jsontrim.go`) against its
natural-language specification.

The Go code operates on the generic value tree produced by `json.Unmarshal`
into `interface{}`: `nil`, `bool`, `float64`, `string`,
`map[string]interface{}` and `[]interface{}`.  We embed this tree as the
inductive type `JValue`.  Crucially, Go uses the single value `nil` both for
the JSON literal `null` and for the "absent, omit this child" signal returned
by `stripRecursive` and `trimFields`; the embedding mirrors this by using the
`JValue.null` constructor for both, exactly as the source does.

Numbers unmarshal to `float64`; their marshaled text is produced by the
external `encoding/json` primitive.  The embedding carries each number as its
marshaled decimal representation (a `String`), which is all the trimming code
ever observes about a number besides the fixed estimate 8.

Go maps are unordered with randomized iteration order; the embedding uses an
association list and its left-to-right order as the iteration order, a
determinization the specification itself flags as an implementer's choice.

`len(s)` on a Go string counts bytes; we model it with `String.utf8ByteSize`.
Byte-level slicing `s[:n]` is modeled by taking whole characters greedily up
to `n` bytes, which coincides with Go on ASCII data (Go would additionally
keep the leading bytes of a split multi-byte character).
-/

namespace Jsontrim

/-- The JSON value tree produced by `json.Unmarshal` into `interface{}`.
`null` doubles as Go's `nil`, which also signals an absent/removed child. -/
inductive JValue where
  | null : JValue
  | bool (b : Bool) : JValue
  | num (repr10 : String) : JValue
  | str (s : String) : JValue
  | obj (entries : List (String × JValue)) : JValue
  | arr (items : List JValue) : JValue
deriving Repr

/-- Error surface of `Trim` relevant after parsing: the single
`ErrCannotTrim` value (`cannot trim JSON below limits`). -/
inductive TrimError where
  | cannotTrim : TrimError
deriving Repr, DecidableEq

/-- The literal `Marker = "[TRIMMED]"`. -/
def Marker : String := "[TRIMMED]"

/-- Go `len` on a string: its UTF-8 byte count. -/
def goLen (s : String) : Nat := s.utf8ByteSize

/-- Byte length contributed by one character in the output of `json.Marshal`
(Go's default HTML-escaping encoder): quote and backslash become two-byte
escapes, as do newline, carriage return and tab; other control characters and
the HTML-sensitive characters are six-byte `\uXXXX` escapes; everything else
is emitted as its UTF-8 bytes. -/
def escCharLen (c : Char) : Nat :=
  if c = '"' ∨ c = '\\' then 2
  else if c = '\n' ∨ c = '\r' ∨ c = '\t' then 2
  else if c.toNat < 0x20 then 6
  else if c = '<' ∨ c = '>' ∨ c = '&' then 6
  else if c.toNat = 0x2028 ∨ c.toNat = 0x2029 then 6
  else c.utf8Size

/-- Byte length of a string as escaped inside quotes by `json.Marshal`. -/
def escLen (s : String) : Nat := (s.data.map escCharLen).sum

/-- Greedy whole-character prefix of at most `budget` bytes; models Go's
byte slice `s[:budget]` on valid data (exact on ASCII). -/
def takeBytesList : Nat → List Char → List Char
  | _, [] => []
  | budget, c :: cs =>
    if c.utf8Size ≤ budget then c :: takeBytesList (budget - c.utf8Size) cs else []

/-- String wrapper for `takeBytesList`. -/
def takeBytes (budget : Nat) (s : String) : String := ⟨takeBytesList budget s.data⟩

mutual

/-- `estimateSize`: the rough byte count from the source, case for a value. -/
def estimateSize : JValue → Nat
  | .null => 0
  | .str s => goLen s + 2
  | .bool b => if b then 4 else 5
  | .num _ => 8
  | .obj entries => 2 + estimateEntries entries
  | .arr items => 2 + estimateItems items
termination_by structural v => v

/-- Accumulated per-entry cost `len(k) + 2 + 1 + estimateSize(sub) + 1` of
`estimateSize` over a map's entries. -/
def estimateEntries : List (String × JValue) → Nat
  | [] => 0
  | (k, sub) :: rest => (goLen k + 2 + 1) + estimateSize sub + 1 + estimateEntries rest
termination_by structural l => l

/-- Accumulated per-item cost `estimateSize(sub) + 1` of `estimateSize` over
an array's items. -/
def estimateItems : List JValue → Nat
  | [] => 0
  | sub :: rest => estimateSize sub + 1 + estimateItems rest
termination_by structural l => l

end

mutual

/-- Exact byte length of `json.Marshal` applied to a value (object keys are
sorted by Go, but the length is independent of entry order). -/
def marshalLen : JValue → Nat
  | .null => 4
  | .bool b => if b then 4 else 5
  | .num r => goLen r
  | .str s => 2 + escLen s
  | .obj entries => 2 + marshalEntries entries
  | .arr items => 2 + marshalItems items
termination_by structural v => v

/-- Byte length of the comma-joined `"key":value` entry list of an object. -/
def marshalEntries : List (String × JValue) → Nat
  | [] => 0
  | [(k, v)] => (2 + escLen k) + 1 + marshalLen v
  | (k, v) :: rest => (2 + escLen k) + 1 + marshalLen v + 1 + marshalEntries rest
termination_by structural l => l

/-- Byte length of the comma-joined item list of an array. -/
def marshalItems : List JValue → Nat
  | [] => 0
  | [v] => marshalLen v
  | v :: rest => marshalLen v + 1 + marshalItems rest
termination_by structural l => l

end

/-- Go `strings.HasPrefix(s, "idx:")`, the array-token test, decided on the
character list. -/
def hasIdxToken (s : String) : Bool :=
  match s.data with
  | 'i' :: 'd' :: 'x' :: ':' :: _ => true
  | _ => false

/-- Leading decimal digits of a character list, if any (`fmt.Sscanf` with
verb `%d` reads an optional sign then digits and ignores trailing input). -/
def leadDigits (l : List Char) : Option Nat :=
  let ds := l.takeWhile Char.isDigit
  if ds.isEmpty then none
  else some (ds.foldl (fun acc c => 10 * acc + (c.toNat - '0'.toNat)) 0)

/-- `fmt.Sscanf(s, "%d", &idx)`: optional minus sign then decimal digits;
`none` models a scan error. -/
def scanInt (s : String) : Option Int :=
  match s.data with
  | '-' :: rest => (leadDigits rest).map (fun n => -(n : Int))
  | l => (leadDigits l).map (fun n => (n : Int))

/-- A removal strategy: `SelectNextToRemove` as a function from the current
value to a token (`""` means done). -/
def TruncStrategy := JValue → String

/-- Scan of `RemoveLargest` over map entries in iteration order, tracking the
best key and its size under strict improvement. -/
def rlScanEntries : List (String × JValue) → String → Nat → String
  | [], best, _ => best
  | (k, val) :: rest, best, maxSize =>
    let sz := estimateSize val
    if sz > maxSize then rlScanEntries rest k sz else rlScanEntries rest best maxSize

/-- Scan of `RemoveLargest` over array items, tracking the best index
(`none` models the initial `-1`). -/
def rlScanItems : List JValue → Nat → Option Nat → Nat → Option Nat
  | [], _, best, _ => best
  | item :: rest, i, best, maxSize =>
    let sz := estimateSize item
    if sz > maxSize then rlScanItems rest (i + 1) (some i) sz
    else rlScanItems rest (i + 1) best maxSize

/-- `RemoveLargest.SelectNextToRemove`: largest immediate child by
`estimateSize`; empty token when no child strictly beats size 0. -/
def RemoveLargest : TruncStrategy := fun v =>
  match v with
  | .obj entries => rlScanEntries entries "" 0
  | .arr items =>
    match rlScanItems items 0 none 0 with
    | some maxIdx => "idx:" ++ toString maxIdx
    | none => ""
  | _ => ""

/-- `FIFO.SelectNextToRemove`: first key in iteration order, or index 0. -/
def FIFO : TruncStrategy := fun v =>
  match v with
  | .obj ((k, _) :: _) => k
  | .arr (_ :: _) => "idx:0"
  | _ => ""

/-- `PrioritizeKeys.SelectNextToRemove`: removes keep-keys from the candidate
set and delegates to the fallback (default `FIFO`); if only keep-keys remain,
delegates to the fallback on the full container.  Non-map values (the final
`return ""`) yield no token. -/
def PrioritizeKeys (keepKeys : List String) (fb : Option TruncStrategy) : TruncStrategy :=
  fun v =>
    let fallback := fb.getD FIFO
    if keepKeys.isEmpty then fallback v
    else
      match v with
      | .obj entries =>
        let candidates := entries.filter (fun e => ¬ keepKeys.contains e.1)
        if ¬ candidates.isEmpty then fallback (.obj candidates)
        else fallback (.obj entries)
      | _ => ""

/-- Helper of `splitOnDot`: characters of the current segment accumulate in
reverse; a dot closes the segment. -/
def splitDotAux : List Char → List Char → List String
  | [], acc => [String.mk acc.reverse]
  | c :: rest, acc =>
    if c = '.' then String.mk acc.reverse :: splitDotAux rest []
    else splitDotAux rest (c :: acc)

/-- Go `strings.Split(p, ".")` as used on blacklist patterns. -/
def splitOnDot (s : String) : List String := splitDotAux s.data []

/-- The two optional hook callbacks.  `PostTrim` also receives the error
state, which the pipeline always passes as `nil` (`none`). -/
structure Hooks where
  PreTrim : Option (JValue → JValue) := none
  PostTrim : Option (JValue → Option TrimError → JValue) := none

/-- `Config` from the source; a field left at its Go zero value is the
default-initialized one here. -/
structure Config where
  FieldLimit : Int := 0
  TotalLimit : Int := 0
  Blacklist : List String := []
  Strategy : Option TruncStrategy := none
  MaxDepth : Int := 0
  TruncateStrings : Bool := false
  ReplaceWithMarker : Bool := false
  Hooks : Hooks := {}

/-- The `Trimmer` struct: the (default-filled) config and the pre-split
blacklist patterns. -/
structure Trimmer where
  cfg : Config
  blacklistParts : List (List String)

/-- `New`: fills zero-valued fields with defaults and pre-splits the
blacklist on dots. -/
def New (cfg0 : Config) : Trimmer :=
  let cfg1 := if cfg0.FieldLimit = 0 then { cfg0 with FieldLimit := 500 } else cfg0
  let cfg2 := if cfg1.TotalLimit = 0 then { cfg1 with TotalLimit := 1024 } else cfg1
  let cfg3 := if cfg2.MaxDepth = 0 then { cfg2 with MaxDepth := 10 } else cfg2
  let cfg4 :=
    match cfg3.Strategy with
    | none => { cfg3 with Strategy := some RemoveLargest }
    | some _ => cfg3
  let cfg5 :=
    match cfg4.Hooks.PreTrim with
    | none => { cfg4 with Hooks := { cfg4.Hooks with PreTrim := some (fun v => v) } }
    | some _ => cfg4
  let cfg6 :=
    match cfg5.Hooks.PostTrim with
    | none => { cfg5 with Hooks := { cfg5.Hooks with PostTrim := some (fun v _ => v) } }
    | some _ => cfg5
  { cfg := cfg6, blacklistParts := cfg6.Blacklist.map splitOnDot }

/-- `matchesBlacklist`: the empty path never matches; otherwise some
pre-split rule of equal length whose every segment is `*` or equals the path
segment. -/
def Trimmer.matchesBlacklist (t : Trimmer) (path : List String) : Bool :=
  if path.isEmpty then false
  else
    t.blacklistParts.any (fun rule =>
      rule.length = path.length ∧
      (rule.zip path).all (fun seg => seg.1 = "*" ∨ seg.1 = seg.2))

mutual

/-- `stripRecursive`: a matched path becomes `Marker` or absent (`null`);
objects rebuild surviving entries; arrays rebuild surviving items and
collapse to absent when empty; scalars pass through. -/
def Trimmer.stripRecursive (t : Trimmer) (v : JValue) (currentPath : List String) : JValue :=
  if t.matchesBlacklist currentPath then
    if t.cfg.ReplaceWithMarker then .str Marker else .null
  else
    match v with
    | .obj entries => .obj (Trimmer.stripEntries t entries currentPath)
    | .arr items =>
      let out := Trimmer.stripItems t items currentPath 0
      if out.isEmpty then .null else .arr out
    | v => v
termination_by structural v

/-- Entry loop of `stripRecursive` over a map: recurse with `path ++ [key]`,
omit entries whose result is `nil`. -/
def Trimmer.stripEntries (t : Trimmer) (entries : List (String × JValue))
    (currentPath : List String) : List (String × JValue) :=
  match entries with
  | [] => []
  | (k, val) :: rest =>
    match Trimmer.stripRecursive t val (currentPath ++ [k]) with
    | .null => Trimmer.stripEntries t rest currentPath
    | s => (k, s) :: Trimmer.stripEntries t rest currentPath
termination_by structural entries

/-- Item loop of `stripRecursive` over an array: recurse with the decimal
index appended, omit `nil` results, keep order. -/
def Trimmer.stripItems (t : Trimmer) (items : List JValue)
    (currentPath : List String) (i : Nat) : List JValue :=
  match items with
  | [] => []
  | item :: rest =>
    match Trimmer.stripRecursive t item (currentPath ++ [toString i]) with
    | .null => Trimmer.stripItems t rest currentPath (i + 1)
    | s => s :: Trimmer.stripItems t rest currentPath (i + 1)
termination_by structural items

end

/-- `stripBlacklisted`: identity when no rules are configured. -/
def Trimmer.stripBlacklisted (t : Trimmer) (v : JValue) : JValue :=
  if t.blacklistParts.isEmpty then v else t.stripRecursive v []

/-- The per-child keep/replace/drop decision of `trimFields` applied to an
already recursively trimmed child: a `nil` child is omitted; otherwise, when
the size estimate exceeds `FieldLimit`, the exact marshaled length is
measured, and if it too exceeds `FieldLimit` the child becomes `Marker`
(when `ReplaceWithMarker`) or is omitted; in every other case the child is
kept as-is. -/
def Trimmer.keepChild (t : Trimmer) (trimmed : JValue) : Option JValue :=
  match trimmed with
  | .null => none
  | trimmed =>
    if (estimateSize trimmed : Int) > t.cfg.FieldLimit then
      if (marshalLen trimmed : Int) > t.cfg.FieldLimit then
        if t.cfg.ReplaceWithMarker then some (.str Marker) else none
      else some trimmed
    else some trimmed

mutual

/-- `trimFields`: collapse to `Marker`/absent when `depth > MaxDepth`
(checked on entry); rebuild objects and arrays from their surviving children;
truncate or drop oversized strings; pass every other primitive through. -/
def Trimmer.trimFields (t : Trimmer) (v : JValue) (depth : Int) : JValue :=
  if depth > t.cfg.MaxDepth then
    if t.cfg.ReplaceWithMarker then .str Marker else .null
  else
    match v with
    | .obj entries => .obj (Trimmer.trimEntries t entries depth)
    | .arr items => .arr (Trimmer.trimItems t items depth)
    | .str s =>
      if (goLen s : Int) > t.cfg.FieldLimit then
        if t.cfg.TruncateStrings ∧ t.cfg.FieldLimit - 6 > 0 ∧
            (goLen s : Int) > t.cfg.FieldLimit - 6 then
          .str (takeBytes (t.cfg.FieldLimit - 6).toNat s ++ "...")
        else if t.cfg.ReplaceWithMarker then .str Marker
        else .null
      else .str s
    | v => v
termination_by structural v

/-- Entry loop of `trimFields` over a map: recurse at `depth + 1`, then apply
the keep/replace/drop decision under the original key. -/
def Trimmer.trimEntries (t : Trimmer) (entries : List (String × JValue))
    (depth : Int) : List (String × JValue) :=
  match entries with
  | [] => []
  | (k, val) :: rest =>
    match t.keepChild (Trimmer.trimFields t val (depth + 1)) with
    | none => Trimmer.trimEntries t rest depth
    | some w => (k, w) :: Trimmer.trimEntries t rest depth
termination_by structural entries

/-- Item loop of `trimFields` over an array: recurse at `depth + 1`, then
apply the keep/replace/drop decision, preserving order. -/
def Trimmer.trimItems (t : Trimmer) (items : List JValue) (depth : Int) : List JValue :=
  match items with
  | [] => []
  | item :: rest =>
    match t.keepChild (Trimmer.trimFields t item (depth + 1)) with
    | none => Trimmer.trimItems t rest depth
    | some w => w :: Trimmer.trimItems t rest depth
termination_by structural items

end

/-- Go map read `vv[k]`: the stored value, or `nil` for a missing key. -/
def mapGet (entries : List (String × JValue)) (k : String) : JValue :=
  match entries with
  | [] => .null
  | (k', v') :: rest => if k' = k then v' else mapGet rest k

/-- Go map write `vv[k] = val`: update in place, or add the key. -/
def mapSet (entries : List (String × JValue)) (k : String) (val : JValue) :
    List (String × JValue) :=
  match entries with
  | [] => [(k, val)]
  | (k', v') :: rest => if k' = k then (k', val) :: rest else (k', v') :: mapSet rest k val

/-- Go `delete(vv, k)`. -/
def mapDelete (entries : List (String × JValue)) (k : String) : List (String × JValue) :=
  match entries with
  | [] => []
  | (k', v') :: rest => if k' = k then mapDelete rest k else (k', v') :: mapDelete rest k

/-- Is this value the interface value `Marker` (the comparison
`vv[...] != Marker` from the source)? -/
def isMarker (v : JValue) : Bool :=
  match v with
  | .str s => s = Marker
  | _ => false

/-- Removal of array index `i`: `copy(vv[i:], vv[i+1:])` followed by
truncating the last slot, i.e. delete position `i` and shift later elements
left by one. -/
def removeIdx (items : List JValue) (i : Nat) : List JValue :=
  items.take i ++ items.drop (i + 1)

/-- One application of a strategy token to the current value: the map branch
acts only on tokens without the `idx:` prefix (replace with `Marker` when
enabled and not already the marker, else delete); the array branch parses
`idx:N`, checks bounds, and replaces with `Marker` or removes-and-shifts.
Any other combination leaves the value unchanged. -/
def Trimmer.applyRemoval (t : Trimmer) (v : JValue) (toRemove : String) : JValue :=
  match v with
  | .obj entries =>
    if ¬ hasIdxToken toRemove then
      if t.cfg.ReplaceWithMarker ∧ ¬ isMarker (mapGet entries toRemove) then
        .obj (mapSet entries toRemove (.str Marker))
      else
        .obj (mapDelete entries toRemove)
    else .obj entries
  | .arr items =>
    if hasIdxToken toRemove then
      match scanInt (toRemove.drop 4) with
      | some idx =>
        if 0 ≤ idx ∧ idx < (items.length : Int) then
          if t.cfg.ReplaceWithMarker ∧ ¬ isMarker (items.getD idx.toNat .null) then
            .arr (items.set idx.toNat (.str Marker))
          else
            .arr (removeIdx items idx.toNat)
        else .arr items
      | none => .arr items
    else .arr items
  | v => v

/-- The strategy stored in the config (`New` always fills it; `getD` guards
the model against a hand-built `Trimmer`, which Go would nil-panic on). -/
def Trimmer.strategy (t : Trimmer) : TruncStrategy := t.cfg.Strategy.getD RemoveLargest

/-- One iteration of the `enforceTotal` loop: `none` means the loop exits
returning the current value (size within `TotalLimit`, or empty token);
`some v'` continues with the value after one removal. -/
def Trimmer.enforceStep (t : Trimmer) (v : JValue) : Option JValue :=
  if (marshalLen v : Int) ≤ t.cfg.TotalLimit then none
  else
    let toRemove := t.strategy v
    if toRemove = "" then none
    else some (t.applyRemoval v toRemove)

/-- The `enforceTotal` loop with explicit fuel.  The Go loop is unbounded;
with the built-in strategies it needs at most two iterations per root entry
(see the termination analysis), and a run that exhausts its fuel models a Go
run that has not yet exited the loop. -/
def Trimmer.enforceLoop (t : Trimmer) : Nat → JValue → JValue
  | 0, v => v
  | n + 1, v =>
    match t.enforceStep v with
    | none => v
    | some v' => t.enforceLoop n v'

/-- Number of immediate children of the root container. -/
def rootLen (v : JValue) : Nat :=
  match v with
  | .obj entries => entries.length
  | .arr items => items.length
  | _ => 0

/-- `enforceTotal`: the loop run with fuel sufficient for every terminating
execution under the built-in strategies. -/
def Trimmer.enforceTotal (t : Trimmer) (v : JValue) : JValue :=
  t.enforceLoop (2 * rootLen v + 1) v

/-- `Trim` after parsing: strip the blacklist, run the pre-hook, trim fields
from depth 1, enforce the total limit, run the post-hook with a `nil` error,
then apply the defensive final check against `TotalLimit`.  The error case
carries no value, modeling Go's `return nil, ErrCannotTrim`. -/
def Trimmer.trim (t : Trimmer) (v0 : JValue) : Except TrimError JValue :=
  let v1 := t.stripBlacklisted v0
  let v2 := (t.cfg.Hooks.PreTrim.getD (fun v => v)) v1
  let v3 := t.trimFields v2 1
  let v4 := t.enforceTotal v3
  let v5 := (t.cfg.Hooks.PostTrim.getD (fun v _ => v)) v4 none
  if (marshalLen v5 : Int) > t.cfg.TotalLimit then .error .cannotTrim
  else .ok v5

/-! Property definitions used by the theorems below (stated properties of
the embedded program, not part of the embedding itself). -/

mutual

/-- Nesting height of a value: scalars have height 1, containers one more
than their deepest child (1 when empty). -/
def height : JValue → Nat
  | .obj entries => 1 + heightEntries entries
  | .arr items => 1 + heightItems items
  | _ => 1
termination_by structural v => v

/-- Maximum height among a map's entry values. -/
def heightEntries : List (String × JValue) → Nat
  | [] => 0
  | (_, v) :: rest => max (height v) (heightEntries rest)
termination_by structural l => l

/-- Maximum height among an array's items. -/
def heightItems : List JValue → Nat
  | [] => 0
  | v :: rest => max (height v) (heightItems rest)
termination_by structural l => l

end

mutual

/-- Does every string scalar occurring in the value satisfy `p`? -/
def allStrings (p : String → Bool) : JValue → Bool
  | .str s => p s
  | .obj entries => allStringsEntries p entries
  | .arr items => allStringsItems p items
  | _ => true
termination_by structural v => v

/-- `allStrings` over a map's entry values. -/
def allStringsEntries (p : String → Bool) : List (String × JValue) → Bool
  | [] => true
  | (_, v) :: rest => allStrings p v && allStringsEntries p rest
termination_by structural l => l

/-- `allStrings` over an array's items. -/
def allStringsItems (p : String → Bool) : List JValue → Bool
  | [] => true
  | v :: rest => allStrings p v && allStringsItems p rest
termination_by structural l => l

end

/-- The amended per-string bound of claim C3: every string scalar is either
the `Marker` or has raw byte length at most `limit`. -/
def strOkB (limit : Int) (s : String) : Bool :=
  s = Marker ∨ (goLen s : Int) ≤ limit

/-- The second list arises from the first by keeping elements, replacing
some by the `Marker` string, and dropping others, never reordering the
survivors.  This is exactly what the total-enforcement loop may do to an
array. -/
inductive ElemsTrimmed : List JValue → List JValue → Prop
  | nil : ElemsTrimmed [] []
  | keep (x : JValue) {l l' : List JValue} :
      ElemsTrimmed l l' → ElemsTrimmed (x :: l) (x :: l')
  | mark (x : JValue) {l l' : List JValue} :
      ElemsTrimmed l l' → ElemsTrimmed (x :: l) (.str Marker :: l')
  | drop (x : JValue) {l l' : List JValue} :
      ElemsTrimmed l l' → ElemsTrimmed (x :: l) l'

/-- Map with an explicit running index, mirroring the indexed loops of the
source (`for i, item := range vv`). -/
def mapWithIdx (f : Nat → JValue → JValue) : Nat → List JValue → List JValue
  | _, [] => []
  | i, x :: xs => f i x :: mapWithIdx f (i + 1) xs

/-! Claim theorems. -/

/-- Closed form of `New`: the sequential zero-value defaulting of the source
collapses to an independent per-field description. -/
theorem New_normal_form (cfg : Config) :
    New cfg = { cfg := { FieldLimit := if cfg.FieldLimit = 0 then 500 else cfg.FieldLimit,
                         TotalLimit := if cfg.TotalLimit = 0 then 1024 else cfg.TotalLimit,
                         Blacklist := cfg.Blacklist,
                         Strategy := some (cfg.Strategy.getD RemoveLargest),
                         MaxDepth := if cfg.MaxDepth = 0 then 10 else cfg.MaxDepth,
                         TruncateStrings := cfg.TruncateStrings,
                         ReplaceWithMarker := cfg.ReplaceWithMarker,
                         Hooks := { PreTrim := some (cfg.Hooks.PreTrim.getD (fun v => v)),
                                    PostTrim := some (cfg.Hooks.PostTrim.getD (fun v _ => v)) } },
                blacklistParts := cfg.Blacklist.map splitOnDot } := by
  obtain ⟨fl, tl, bl, st, md, ts, rwm, pre, post⟩ := cfg
  by_cases hfl : fl = 0 <;> by_cases htl : tl = 0 <;> by_cases hmd : md = 0 <;>
    cases st <;> cases pre <;> cases post <;>
      simp_all [New]

/-- C1: for every parsed input and every configuration, `Trim` either
returns a success whose exact serialized byte length is within `TotalLimit`,
or it returns the budget-unsatisfiable error `ErrCannotTrim` (carrying no
partial result); it never returns an oversized success. -/
theorem trim_total_budget_dichotomy (cfg : Config) (v : JValue) :
    match (New cfg).trim v with
    | .ok out => (marshalLen out : Int) ≤ (New cfg).cfg.TotalLimit
    | .error e => e = .cannotTrim := by
  unfold Trimmer.trim
  set t := New cfg with ht
  set v5 := (t.cfg.Hooks.PostTrim.getD (fun v _ => v))
    (t.enforceTotal (t.trimFields ((t.cfg.Hooks.PreTrim.getD (fun v => v)) (t.stripBlacklisted v)) 1)) none with hv5
  by_cases h : (marshalLen v5 : Int) > t.cfg.TotalLimit
  · simp [h]
  · simp [h]
    rw [← hv5]
    omega

/-- C9 is a nontermination bug: on the input whose root object holds its
oversized value under the key `idx:0` (a key carrying the array-token
prefix), the enforcement loop makes no progress at any fuel — Go's unbounded
`for` loop never exits.  The strategy keeps returning the key, the map
branch skips every token with the `idx:` prefix, and the value stays over
budget. -/
theorem enforceTotal_stuck_on_idx_key :
    (∀ n, (New { TotalLimit := 10 }).enforceLoop n
        (.obj [("idx:0", .str (String.mk (List.replicate 20 'x')))]) =
        .obj [("idx:0", .str (String.mk (List.replicate 20 'x')))]) ∧
    (New { TotalLimit := 10 }).enforceStep
        (.obj [("idx:0", .str (String.mk (List.replicate 20 'x')))]) =
      some (.obj [("idx:0", .str (String.mk (List.replicate 20 'x')))]) ∧
    (marshalLen (.obj [("idx:0", .str (String.mk (List.replicate 20 'x')))]) : Int) >
      (New { TotalLimit := 10 }).cfg.TotalLimit := by
  have hstep : (New { TotalLimit := 10 }).enforceStep
      (.obj [("idx:0", .str (String.mk (List.replicate 20 'x')))]) =
      some (.obj [("idx:0", .str (String.mk (List.replicate 20 'x')))]) := by rfl
  refine ⟨?_, hstep, by decide⟩
  intro n
  induction n with
  | zero => rfl
  | succ n ih =>
    rw [Trimmer.enforceLoop, hstep]
    exact ih

/-- C10: `New` silently replaces every zero-valued field by its default
(FieldLimit 500, TotalLimit 1024, MaxDepth 10, strategy `RemoveLargest`,
identity hooks), so a caller cannot configure `MaxDepth = 0`: the trimmer
built from `MaxDepth := 0` is the one built from `MaxDepth := 10`, and
`Trim` behaves identically. -/
theorem new_fills_zero_fields_with_defaults (cfg : Config) :
    ((New cfg).cfg.FieldLimit = if cfg.FieldLimit = 0 then 500 else cfg.FieldLimit) ∧
    ((New cfg).cfg.TotalLimit = if cfg.TotalLimit = 0 then 1024 else cfg.TotalLimit) ∧
    ((New cfg).cfg.MaxDepth = if cfg.MaxDepth = 0 then 10 else cfg.MaxDepth) ∧
    ((New cfg).cfg.Strategy = some (cfg.Strategy.getD RemoveLargest)) ∧
    ((New cfg).cfg.Hooks.PreTrim = some (cfg.Hooks.PreTrim.getD (fun v => v))) ∧
    ((New cfg).cfg.Hooks.PostTrim = some (cfg.Hooks.PostTrim.getD (fun v _ => v))) ∧
    (New { cfg with MaxDepth := 0 } = New { cfg with MaxDepth := 10 }) ∧
    (∀ v, (New { cfg with MaxDepth := 0 }).trim v = (New { cfg with MaxDepth := 10 }).trim v) := by
  have hmd : New { cfg with MaxDepth := 0 } = New { cfg with MaxDepth := 10 } := by
    rw [New_normal_form, New_normal_form]
    simp
  refine ⟨?_, ?_, ?_, ?_, ?_, ?_, hmd, fun v => by rw [hmd]⟩ <;>
    rw [New_normal_form]

/-- C4 counterexample: with blacklist rule `a.b`, stripping
`{"a": {"b": 1}}` empties the inner object, yet the stripper's result keeps
it as `{"a": {}}` — an Object with zero entries survives, contradicting the
claim that every emptied container is propagated up as removed. -/
theorem strip_keeps_emptied_object :
    (New { Blacklist := ["a.b"] }).stripRecursive
      (.obj [("a", .obj [("b", .num "1")])]) [] = .obj [("a", .obj [])] := by rfl

/-- C4 amended: during blacklist stripping, an Array that ends up with zero
entries after its children are processed collapses to absent, but an Object
never does — at an unmatched path the stripper always returns an Object
(possibly empty) for an Object input. -/
theorem strip_empty_array_absent_object_kept (t : Trimmer) (path : List String)
    (h : t.matchesBlacklist path = false) :
    (∀ items, t.stripItems items path 0 = [] →
      t.stripRecursive (.arr items) path = .null) ∧
    (∀ entries, t.stripRecursive (.obj entries) path =
      .obj (t.stripEntries entries path)) ∧
    (∀ entries, t.stripRecursive (.obj entries) path ≠ .null) := by
  refine ⟨fun items hempty => ?_, fun entries => ?_, fun entries => ?_⟩ <;>
    simp [Trimmer.stripRecursive, h]
  exact hempty

/-- C4 witness. -/
theorem strip_empty_array_absent_object_kept_witness :
    (New { Blacklist := ["a.b"] }).stripRecursive (.arr []) ["z"] = .null ∧
    (New { Blacklist := ["a.b"] }).stripRecursive (.obj []) ["z"] ≠ .null := by
  have h := strip_empty_array_absent_object_kept (New { Blacklist := ["a.b"] }) ["z"] (by rfl)
  exact ⟨h.1 [] (by rfl), h.2.2 []⟩

/-- C5 counterexample: at the default configuration, the Field Trimmer drops
a Null member of an object instead of leaving it in place — Go's `nil`
doubles as the absence signal, so `{"a": null}` becomes `{}`. -/
theorem trimFields_drops_null_member :
    (New {}).trimFields (.obj [("a", .null)]) 1 = .obj [] := by rfl

/-- C5 amended: whenever `FieldLimit` is at least 8, the Field Trimmer never
alters Bool or Number scalars within the depth bound: at the root they are
returned unchanged, and as members of objects or elements of arrays they are
kept under the same key and relative position; a Null at the root is
returned unchanged, but Null object members and Null array elements are
removed. -/
theorem trimFields_scalar_preservation (t : Trimmer) (d : Int)
    (hFL : 8 ≤ t.cfg.FieldLimit) (hd : d < t.cfg.MaxDepth) :
    (∀ d', ¬ d' > t.cfg.MaxDepth →
      t.trimFields .null d' = .null ∧
      (∀ b, t.trimFields (.bool b) d' = .bool b) ∧
      (∀ r, t.trimFields (.num r) d' = .num r)) ∧
    (∀ k b rest, t.trimEntries ((k, .bool b) :: rest) d =
      (k, .bool b) :: t.trimEntries rest d) ∧
    (∀ k r rest, t.trimEntries ((k, .num r) :: rest) d =
      (k, .num r) :: t.trimEntries rest d) ∧
    (∀ k rest, t.trimEntries ((k, (.null : JValue)) :: rest) d = t.trimEntries rest d) ∧
    (∀ b rest, t.trimItems (.bool b :: rest) d = .bool b :: t.trimItems rest d) ∧
    (∀ r rest, t.trimItems (.num r :: rest) d = .num r :: t.trimItems rest d) ∧
    (∀ rest, t.trimItems ((.null : JValue) :: rest) d = t.trimItems rest d) := by
  have hstep : ¬ d + 1 > t.cfg.MaxDepth := by omega
  have hnull : t.trimFields .null (d + 1) = .null := by
    simp [Trimmer.trimFields, hstep]
  have hbool : ∀ b, t.trimFields (.bool b) (d + 1) = .bool b := by
    intro b; simp [Trimmer.trimFields, hstep]
  have hnum : ∀ r, t.trimFields (.num r) (d + 1) = .num r := by
    intro r; simp [Trimmer.trimFields, hstep]
  have hkeepb : ∀ b, t.keepChild (.bool b) = some (.bool b) := by
    intro b
    have hest : ¬ (estimateSize (.bool b) : Int) > t.cfg.FieldLimit := by
      cases b <;> simp [estimateSize] <;> omega
    simp [Trimmer.keepChild, hest]
  have hkeepn : ∀ r, t.keepChild (.num r) = some (.num r) := by
    intro r
    have hest : ¬ (estimateSize (.num r) : Int) > t.cfg.FieldLimit := by
      simp [estimateSize]; omega
    simp [Trimmer.keepChild, hest]
  have hkeep0 : t.keepChild .null = none := rfl
  refine ⟨fun d' hd' => ⟨?_, fun b => ?_, fun r => ?_⟩, ?_, ?_, ?_, ?_, ?_, ?_⟩
  · simp [Trimmer.trimFields, hd']
  · simp [Trimmer.trimFields, hd']
  · simp [Trimmer.trimFields, hd']
  all_goals
    simp [Trimmer.trimEntries, Trimmer.trimItems, hnull, hbool, hnum, hkeepb, hkeepn, hkeep0]

/-- C5 witness. -/
theorem trimFields_scalar_preservation_witness :
    (New {}).trimEntries [("a", .bool true), ("b", .num "7"), ("c", .null)] 1 =
      [("a", .bool true), ("b", .num "7")] := by
  have h := trimFields_scalar_preservation (New {}) 1 (by decide) (by decide)
  rw [h.2.1, h.2.2.1, h.2.2.2.1]
  rfl

/-- `keepChild` can only return the `Marker` string or its input unchanged. -/
theorem keepChild_some (t : Trimmer) (x w : JValue) (h : t.keepChild x = some w) :
    w = .str Marker ∨ w = x := by
  cases x <;> simp [Trimmer.keepChild] at h <;> split_ifs at h <;> simp_all

mutual

/-- Nesting height of a trimmed value is bounded in terms of the remaining
depth budget. -/
theorem trimFields_height (t : Trimmer) (v : JValue) (d : Int) :
    height (t.trimFields v d) ≤ max 1 (t.cfg.MaxDepth - d + 2).toNat := by
  by_cases h : d > t.cfg.MaxDepth
  · rw [Trimmer.trimFields.eq_def, if_pos h]
    split_ifs <;> simp [height]
  · cases v with
    | obj entries =>
      rw [Trimmer.trimFields.eq_def, if_neg h]
      have he := trimEntries_height t entries d
      dsimp only
      simp only [height]
      omega
    | arr items =>
      rw [Trimmer.trimFields.eq_def, if_neg h]
      have he := trimItems_height t items d
      dsimp only
      simp only [height]
      omega
    | str s =>
      rw [Trimmer.trimFields.eq_def, if_neg h]
      dsimp only
      split_ifs <;> simp [height]
    | null => rw [Trimmer.trimFields.eq_def, if_neg h]; simp [height]
    | bool b => rw [Trimmer.trimFields.eq_def, if_neg h]; simp [height]
    | num r => rw [Trimmer.trimFields.eq_def, if_neg h]; simp [height]
termination_by structural v

/-- Height bound for the trimmed entries of an object. -/
theorem trimEntries_height (t : Trimmer) (entries : List (String × JValue)) (d : Int) :
    heightEntries (t.trimEntries entries d) ≤ max 1 (t.cfg.MaxDepth - d + 1).toNat := by
  match entries with
  | [] => simp [Trimmer.trimEntries, heightEntries]
  | (k, val) :: rest =>
    rw [Trimmer.trimEntries]
    have hrest := trimEntries_height t rest d
    cases hw : t.keepChild (t.trimFields val (d + 1)) with
    | none => simpa using hrest
    | some w =>
      have hv := trimFields_height t val (d + 1)
      have hcases := keepChild_some t _ w hw
      simp only [heightEntries]
      rcases hcases with hm | he
      · subst hm; simp [height]; omega
      · subst he; omega
termination_by structural entries

/-- Height bound for the trimmed items of an array. -/
theorem trimItems_height (t : Trimmer) (items : List JValue) (d : Int) :
    heightItems (t.trimItems items d) ≤ max 1 (t.cfg.MaxDepth - d + 1).toNat := by
  match items with
  | [] => simp [Trimmer.trimItems, heightItems]
  | item :: rest =>
    rw [Trimmer.trimItems]
    have hrest := trimItems_height t rest d
    cases hw : t.keepChild (t.trimFields item (d + 1)) with
    | none => simpa using hrest
    | some w =>
      have hv := trimFields_height t item (d + 1)
      have hcases := keepChild_some t _ w hw
      simp only [heightItems]
      rcases hcases with hm | he
      · subst hm; simp [height]; omega
      · subst he; omega
termination_by structural items

end

/-- C6: a subtree reached at depth strictly greater than `MaxDepth` is
entirely collapsed on entry to the recursive call — to the `Marker` when
`ReplaceWithMarker` is enabled, otherwise to absent — without descending
further, and consequently the nesting height of any trimmed result is
bounded by the remaining depth budget, so no partial expansion of a
too-deep subtree ever survives. -/
theorem deep_subtrees_entirely_collapsed (t : Trimmer) (v : JValue) (d : Int)
    (h : d > t.cfg.MaxDepth) :
    t.trimFields v d = (if t.cfg.ReplaceWithMarker then .str Marker else .null) ∧
    (∀ v' d', height (t.trimFields v' d') ≤ max 1 (t.cfg.MaxDepth - d' + 2).toNat) := by
  constructor
  · rw [Trimmer.trimFields.eq_def, if_pos h]
  · exact fun v' d' => trimFields_height t v' d'

/-- C6 witness. -/
theorem deep_subtrees_entirely_collapsed_witness :
    (New {}).trimFields (.obj [("k", .str "v")]) 11 =
      (if (New {}).cfg.ReplaceWithMarker then .str Marker else .null) ∧
    height ((New {}).trimFields (.arr [.arr [.str "s"]]) 1) ≤
      max 1 (((New {}).cfg.MaxDepth : Int) - 1 + 2).toNat := by
  have h := deep_subtrees_entirely_collapsed (New {}) (.obj [("k", .str "v")]) 11 (by decide)
  exact ⟨h.1, h.2 (.arr [.arr [.str "s"]]) 1⟩

/-! Byte-length computation helpers for the concrete scenarios (kernel
reduction of 2000-character strings is out of reach, so these compute the
relevant lengths symbolically). -/

theorem utf8Len_replicate_x (n : Nat) : String.utf8Len (List.replicate n 'x') = n := by
  induction n with
  | zero => rfl
  | succ n ih => simp [List.replicate, ih]; decide

theorem goLen_replicate_x (n : Nat) : goLen (String.mk (List.replicate n 'x')) = n := by
  simp [goLen, utf8Len_replicate_x]

theorem goLen_x_dots (n : Nat) :
    goLen (String.mk (List.replicate n 'x') ++ "...") = n + 3 := by
  show String.utf8ByteSize (String.mk (List.replicate n 'x' ++ "...".data)) = n + 3
  simp [utf8Len_replicate_x]
  decide

theorem escLen_replicate_x (n : Nat) : escLen (String.mk (List.replicate n 'x')) = n := by
  show ((List.replicate n 'x').map escCharLen).sum = n
  simp [List.map_replicate, escCharLen]
  have h1 : ('x').utf8Size = 1 := by decide
  simp [h1]

theorem escLen_x_dots (n : Nat) :
    escLen (String.mk (List.replicate n 'x') ++ "...") = n + 3 := by
  show ((List.replicate n 'x' ++ "...".data).map escCharLen).sum = n + 3
  simp [List.map_append, List.map_replicate, escCharLen]
  have h1 : ('x').utf8Size = 1 := by decide
  have h2 : ('.').utf8Size = 1 := by decide
  simp [h1, h2]

theorem takeBytesList_replicate_x (n m : Nat) (h : n ≤ m) :
    takeBytesList n (List.replicate m 'x') = List.replicate n 'x' := by
  induction n generalizing m with
  | zero =>
    cases m with
    | zero => rfl
    | succ m' =>
      simp only [List.replicate, takeBytesList]
      rw [if_neg (by decide)]
  | succ n ih =>
    cases m with
    | zero => omega
    | succ m' =>
      simp only [List.replicate, takeBytesList]
      have h1 : ('x').utf8Size = 1 := rfl
      rw [if_pos (by omega)]
      rw [h1]
      simp only [Nat.add_sub_cancel]
      rw [ih m' (by omega)]


theorem c7_data_trim :
    (New { FieldLimit := 500, TotalLimit := 1024, TruncateStrings := true }).trimFields
      (.str (String.mk (List.replicate 2000 'x'))) ((1 : Int) + 1) =
    .str (String.mk (List.replicate 494 'x') ++ "...") := by
  set t := New { FieldLimit := 500, TotalLimit := 1024, TruncateStrings := true } with ht
  have hfl : t.cfg.FieldLimit = 500 := rfl
  have hg : goLen (String.mk (List.replicate 2000 'x')) = 2000 := goLen_replicate_x 2000
  rw [Trimmer.trimFields.eq_def, if_neg (by decide)]
  dsimp only
  rw [if_pos (by rw [hg, hfl]; norm_num)]
  rw [if_pos ⟨rfl, by rw [hfl]; norm_num, by rw [hg, hfl]; norm_num⟩]
  have htake : takeBytes ((t.cfg.FieldLimit - 6).toNat) (String.mk (List.replicate 2000 'x')) =
      String.mk (List.replicate 494 'x') := by
    rw [hfl]
    show String.mk (takeBytesList ((500 - 6 : Int)).toNat (List.replicate 2000 'x')) = _
    rw [show ((500 - 6 : Int)).toNat = 494 from rfl]
    rw [takeBytesList_replicate_x 494 2000 (by norm_num)]
  rw [htake]

set_option maxRecDepth 4000 in
theorem c7_keep_data :
    (New { FieldLimit := 500, TotalLimit := 1024, TruncateStrings := true }).keepChild
      (.str (String.mk (List.replicate 494 'x') ++ "...")) =
      some (.str (String.mk (List.replicate 494 'x') ++ "...")) := by rfl

set_option maxRecDepth 4000 in
theorem c7_out_marshal :
    marshalLen (.obj [("id", .str "123"),
      ("data", .str (String.mk (List.replicate 494 'x') ++ "..."))]) = 519 := by decide

set_option maxRecDepth 4000 in
theorem c7_id_keep :
    (New { FieldLimit := 500, TotalLimit := 1024, TruncateStrings := true }).keepChild
      ((New { FieldLimit := 500, TotalLimit := 1024, TruncateStrings := true }).trimFields
        (.str "123") ((1 : Int) + 1)) = some (.str "123") := by rfl


theorem c7_trimFields :
    (New { FieldLimit := 500, TotalLimit := 1024, TruncateStrings := true }).trimFields
      (.obj [("id", .str "123"), ("data", .str (String.mk (List.replicate 2000 'x')))]) 1 =
    .obj [("id", .str "123"), ("data", .str (String.mk (List.replicate 494 'x') ++ "..."))] := by
  rw [Trimmer.trimFields.eq_def, if_neg (by decide)]
  dsimp only
  rw [Trimmer.trimEntries, c7_id_keep]
  dsimp only
  rw [Trimmer.trimEntries, c7_data_trim, c7_keep_data]
  dsimp only
  rw [Trimmer.trimEntries]

theorem c7_enforce :
    (New { FieldLimit := 500, TotalLimit := 1024, TruncateStrings := true }).enforceTotal
      (.obj [("id", .str "123"), ("data", .str (String.mk (List.replicate 494 'x') ++ "..."))]) =
    .obj [("id", .str "123"), ("data", .str (String.mk (List.replicate 494 'x') ++ "..."))] := by
  have hstep : (New { FieldLimit := 500, TotalLimit := 1024, TruncateStrings := true }).enforceStep
      (.obj [("id", .str "123"), ("data", .str (String.mk (List.replicate 494 'x') ++ "..."))]) = none := by
    rw [Trimmer.enforceStep]
    rw [if_pos (by
      rw [c7_out_marshal,
        show (New { FieldLimit := 500, TotalLimit := 1024, TruncateStrings := true }).cfg.TotalLimit =
          (1024 : Int) from rfl]
      norm_num)]
  show (New { FieldLimit := 500, TotalLimit := 1024, TruncateStrings := true }).enforceLoop (4 + 1)
      (.obj [("id", .str "123"), ("data", .str (String.mk (List.replicate 494 'x') ++ "..."))]) = _
  rw [Trimmer.enforceLoop, hstep]

theorem c7_trim_ok :
    (New { FieldLimit := 500, TotalLimit := 1024, TruncateStrings := true }).trim
      (.obj [("id", .str "123"), ("data", .str (String.mk (List.replicate 2000 'x')))]) =
    .ok (.obj [("id", .str "123"), ("data", .str (String.mk (List.replicate 494 'x') ++ "..."))]) := by
  have h1 : (New { FieldLimit := 500, TotalLimit := 1024, TruncateStrings := true }).stripBlacklisted
      (.obj [("id", .str "123"), ("data", .str (String.mk (List.replicate 2000 'x')))]) =
      (.obj [("id", .str "123"), ("data", .str (String.mk (List.replicate 2000 'x')))]) := rfl
  have hpre : (New { FieldLimit := 500, TotalLimit := 1024, TruncateStrings := true }).cfg.Hooks.PreTrim =
      some (fun v => v) := rfl
  have hpost : (New { FieldLimit := 500, TotalLimit := 1024, TruncateStrings := true }).cfg.Hooks.PostTrim =
      some (fun v _ => v) := rfl
  unfold Trimmer.trim
  simp only [h1, hpre, hpost, Option.getD_some, c7_trimFields, c7_enforce]
  rw [if_neg (by
    rw [c7_out_marshal,
      show (New { FieldLimit := 500, TotalLimit := 1024, TruncateStrings := true }).cfg.TotalLimit =
        (1024 : Int) from rfl]
    norm_num)]


/-- C7: an oversized string (raw length above `FieldLimit`) with
`TruncateStrings` enabled and `FieldLimit - 6` positive becomes its first
`FieldLimit - 6` bytes with `...` appended; otherwise it becomes the
`Marker` or absent.  On the spec scenario (`FieldLimit` 500, `TotalLimit`
1024, `TruncateStrings` on, `data` of 2000 bytes) `id` is unchanged, `data`
becomes 494 characters plus `...`, and the whole output serializes within
1024 bytes. -/
theorem oversized_string_truncation (t : Trimmer) (s : String) (d : Int)
    (hd : ¬ d > t.cfg.MaxDepth) (hlen : (goLen s : Int) > t.cfg.FieldLimit) :
    (t.cfg.TruncateStrings = true → t.cfg.FieldLimit - 6 > 0 →
      t.trimFields (.str s) d = .str (takeBytes (t.cfg.FieldLimit - 6).toNat s ++ "...")) ∧
    (t.cfg.TruncateStrings = false ∨ ¬ t.cfg.FieldLimit - 6 > 0 →
      t.trimFields (.str s) d = (if t.cfg.ReplaceWithMarker then .str Marker else .null)) ∧
    (New { FieldLimit := 500, TotalLimit := 1024, TruncateStrings := true }).trim
        (.obj [("id", .str "123"), ("data", .str (String.mk (List.replicate 2000 'x')))]) =
      .ok (.obj [("id", .str "123"),
                 ("data", .str (String.mk (List.replicate 494 'x') ++ "..."))]) ∧
    marshalLen (.obj [("id", .str "123"),
                 ("data", .str (String.mk (List.replicate 494 'x') ++ "..."))]) ≤ 1024 := by
  refine ⟨fun hts hpos => ?_, fun hfb => ?_, c7_trim_ok, by rw [c7_out_marshal]; norm_num⟩
  · rw [Trimmer.trimFields.eq_def, if_neg hd]
    dsimp only
    rw [if_pos hlen, if_pos ⟨hts, hpos, by omega⟩]
  · rw [Trimmer.trimFields.eq_def, if_neg hd]
    dsimp only
    rw [if_pos hlen, if_neg (by rcases hfb with h | h <;> simp [h])]

set_option maxRecDepth 4000 in
/-- C7 witness. -/
theorem oversized_string_truncation_witness :
    (New { TruncateStrings := true }).trimFields
        (.str (String.mk (List.replicate 600 'x'))) 1 =
      .str (takeBytes ((New { TruncateStrings := true }).cfg.FieldLimit - 6).toNat
        (String.mk (List.replicate 600 'x')) ++ "...") := by
  have h := oversized_string_truncation (New { TruncateStrings := true })
    (String.mk (List.replicate 600 'x')) 1 (by decide)
    (by rw [goLen_replicate_x]; decide)
  exact h.1 rfl (by decide)

set_option maxRecDepth 4000 in
/-- C3 counterexample: under the default configuration (FieldLimit 500), a
root string of exactly 500 bytes passes through `Trim` untouched, yet its
exact serialized length is 502 bytes — greater than FieldLimit — and it is a
string scalar, not the Marker: a field whose serialized size exceeds
FieldLimit survives in the output. -/
theorem trim_output_string_exceeds_field_limit :
    (New {}).trim (.str (String.mk (List.replicate 500 'x'))) =
      .ok (.str (String.mk (List.replicate 500 'x'))) ∧
    (New {}).cfg.FieldLimit = 500 ∧
    marshalLen (.str (String.mk (List.replicate 500 'x'))) = 502 ∧
    String.mk (List.replicate 500 'x') ≠ Marker := by
  refine ⟨by rfl, rfl, by decide, by decide⟩

/-- Total UTF-8 byte length of a greedy byte-bounded prefix never exceeds
the budget. -/
theorem utf8Len_takeBytesList (budget : Nat) (l : List Char) :
    String.utf8Len (takeBytesList budget l) ≤ budget := by
  induction l generalizing budget with
  | nil => simp [takeBytesList]
  | cons c cs ih =>
    simp only [takeBytesList]
    split_ifs with h
    · have := ih (budget - c.utf8Size)
      simp only [String.utf8Len_cons]
      omega
    · simp

mutual

/-- Every string scalar in the output of `trimFields` is the Marker or has
raw byte length within `FieldLimit`. -/
theorem trimFields_strings_ok (t : Trimmer) (v : JValue) (d : Int) :
    allStrings (strOkB t.cfg.FieldLimit) (t.trimFields v d) = true := by
  by_cases h : d > t.cfg.MaxDepth
  · rw [Trimmer.trimFields.eq_def, if_pos h]
    split_ifs <;> simp [allStrings, strOkB]
  · cases v with
    | obj entries =>
      rw [Trimmer.trimFields.eq_def, if_neg h]
      dsimp only
      simpa [allStrings] using trimEntries_strings_ok t entries d
    | arr items =>
      rw [Trimmer.trimFields.eq_def, if_neg h]
      dsimp only
      simpa [allStrings] using trimItems_strings_ok t items d
    | str s =>
      rw [Trimmer.trimFields.eq_def, if_neg h]
      dsimp only
      split_ifs with h1 h2
      · simp only [allStrings, strOkB]
        have hb : goLen (takeBytes (t.cfg.FieldLimit - 6).toNat s ++ "...") ≤
            (t.cfg.FieldLimit - 6).toNat + 3 := by
          show String.utf8ByteSize
              (String.mk (takeBytesList (t.cfg.FieldLimit - 6).toNat s.data ++ "...".data)) ≤ _
          have := utf8Len_takeBytesList (t.cfg.FieldLimit - 6).toNat s.data
          simp only [String.utf8ByteSize_mk, String.utf8Len_append]
          have hdots : String.utf8Len "...".data = 3 := by decide
          have hdots' : String.utf8Len ['.', '.', '.'] = 3 := by decide
          omega
        simp only [decide_eq_true_eq]
        right
        omega
      · simp [allStrings, strOkB]
      · simp [allStrings]
      · simp only [allStrings, strOkB, decide_eq_true_eq]
        right
        omega
    | null => rw [Trimmer.trimFields.eq_def, if_neg h]; simp [allStrings]
    | bool b => rw [Trimmer.trimFields.eq_def, if_neg h]; simp [allStrings]
    | num r => rw [Trimmer.trimFields.eq_def, if_neg h]; simp [allStrings]
termination_by structural v

/-- String bound for the trimmed entries of an object. -/
theorem trimEntries_strings_ok (t : Trimmer) (entries : List (String × JValue)) (d : Int) :
    allStringsEntries (strOkB t.cfg.FieldLimit) (t.trimEntries entries d) = true := by
  match entries with
  | [] => simp [Trimmer.trimEntries, allStringsEntries]
  | (k, val) :: rest =>
    rw [Trimmer.trimEntries]
    have hrest := trimEntries_strings_ok t rest d
    cases hw : t.keepChild (t.trimFields val (d + 1)) with
    | none => simpa using hrest
    | some w =>
      have hv := trimFields_strings_ok t val (d + 1)
      have hcases := keepChild_some t _ w hw
      simp only [allStringsEntries, Bool.and_eq_true]
      rcases hcases with hm | he
      · subst hm; exact ⟨by simp [allStrings, strOkB], hrest⟩
      · subst he; exact ⟨hv, hrest⟩
termination_by structural entries

/-- String bound for the trimmed items of an array. -/
theorem trimItems_strings_ok (t : Trimmer) (items : List JValue) (d : Int) :
    allStringsItems (strOkB t.cfg.FieldLimit) (t.trimItems items d) = true := by
  match items with
  | [] => simp [Trimmer.trimItems, allStringsItems]
  | item :: rest =>
    rw [Trimmer.trimItems]
    have hrest := trimItems_strings_ok t rest d
    cases hw : t.keepChild (t.trimFields item (d + 1)) with
    | none => simpa using hrest
    | some w =>
      have hv := trimFields_strings_ok t item (d + 1)
      have hcases := keepChild_some t _ w hw
      simp only [allStringsItems, Bool.and_eq_true]
      rcases hcases with hm | he
      · subst hm; exact ⟨by simp [allStrings, strOkB], hrest⟩
      · subst he; exact ⟨hv, hrest⟩
termination_by structural items

end

/-- C3 amended: after the Field Trimmer stage, every string scalar anywhere
in the result is either the Marker or has RAW byte length at most
`FieldLimit` (the exact serialized size can exceed `FieldLimit` by the two
quotes and escaping, as the counterexample shows); non-string scalars are
never size-checked at the leaf level. -/
theorem trimmed_strings_marker_or_raw_within_limit (t : Trimmer) (v : JValue) (d : Int) :
    allStrings (strOkB t.cfg.FieldLimit) (t.trimFields v d) = true ∧
    (∀ limit s, (strOkB limit s = true ↔ s = Marker ∨ (goLen s : Int) ≤ limit)) := by
  refine ⟨trimFields_strings_ok t v d, fun limit s => ?_⟩
  simp [strOkB]

/-- The wildcard matcher agrees with its specification: a non-empty path
matches exactly when some pre-split rule has the same length and each rule
segment is the wildcard `*` or equals the path segment. -/
theorem matchesBlacklist_spec (t : Trimmer) (path : List String) :
    t.matchesBlacklist path = true ↔
      path ≠ [] ∧ ∃ rule ∈ t.blacklistParts,
        List.Forall₂ (fun rseg pseg => rseg = "*" ∨ rseg = pseg) rule path := by
  unfold Trimmer.matchesBlacklist
  split_ifs with hp
  · simp only [List.isEmpty_iff] at hp
    simp [hp]
  · simp only [List.isEmpty_iff] at hp
    simp only [List.any_eq_true, decide_eq_true_eq, List.all_eq_true, List.forall₂_iff_zip]
    constructor
    · rintro ⟨rule, hmem, hlen, hall⟩
      exact ⟨hp, rule, hmem, hlen, fun hab => by simpa using hall _ hab⟩
    · rintro ⟨-, rule, hmem, hlen, hall⟩
      exact ⟨rule, hmem, hlen, fun seg hseg => by simpa using hall hseg⟩

/-- C2: a value whose full path exactly matches a blacklist rule (equal
length; each rule segment the wildcard `*` or equal to the key / decimal
index) never survives stripping: the whole subtree becomes the Marker or is
absent, whatever the value.  On the scenario, blacklist `users.*.pass`
removes both `users[i].pass` while `meta.pass` keeps the value
`no-match`. -/
theorem blacklisted_paths_never_survive :
    (∀ (t : Trimmer) (v : JValue) (path : List String),
      t.matchesBlacklist path = true →
      t.stripRecursive v path =
        (if t.cfg.ReplaceWithMarker then .str Marker else .null)) ∧
    (∀ (t : Trimmer) (path : List String),
      t.matchesBlacklist path = true ↔
        path ≠ [] ∧ ∃ rule ∈ t.blacklistParts,
          List.Forall₂ (fun rseg pseg => rseg = "*" ∨ rseg = pseg) rule path) ∧
    (New { Blacklist := ["users.*.pass"] }).trim
      (.obj [("users", .arr [
          .obj [("id", .num "1"), ("pass", .str "abc")],
          .obj [("id", .num "2"), ("pass", .str "xyz")]]),
        ("meta", .obj [("pass", .str "no-match")])]) =
    .ok (.obj [("users", .arr [.obj [("id", .num "1")], .obj [("id", .num "2")]]),
        ("meta", .obj [("pass", .str "no-match")])]) := by
  refine ⟨fun t v path h => ?_, matchesBlacklist_spec, by rfl⟩
  rw [Trimmer.stripRecursive.eq_def, if_pos h]

/-- C2 witness. -/
theorem blacklisted_paths_never_survive_witness :
    (New { Blacklist := ["users.*.pass"] }).stripRecursive (.str "secret")
      ["users", "7", "pass"] = .null := by
  have h := blacklisted_paths_never_survive.1 (New { Blacklist := ["users.*.pass"] })
    (.str "secret") ["users", "7", "pass"] (by rfl)
  simpa using h

theorem removeIdx_cons_zero (x : JValue) (xs : List JValue) : removeIdx (x :: xs) 0 = xs := by
  simp [removeIdx]

theorem removeIdx_cons_succ (x : JValue) (xs : List JValue) (i : Nat) :
    removeIdx (x :: xs) (i + 1) = x :: removeIdx xs i := by
  simp [removeIdx]

theorem elemsTrimmed_refl (l : List JValue) : ElemsTrimmed l l := by
  induction l with
  | nil => exact .nil
  | cons x xs ih => exact .keep x ih

theorem elemsTrimmed_set_marker {l l' : List JValue} (h : ElemsTrimmed l l') (i : Nat) :
    ElemsTrimmed l (l'.set i (.str Marker)) := by
  induction h generalizing i with
  | nil => simpa using ElemsTrimmed.nil
  | keep x h ih =>
    cases i with
    | zero => simpa using ElemsTrimmed.mark x h
    | succ i' => simpa using ElemsTrimmed.keep x (ih i')
  | mark x h ih =>
    cases i with
    | zero => simpa using ElemsTrimmed.mark x h
    | succ i' => simpa using ElemsTrimmed.mark x (ih i')
  | drop x h ih => exact .drop x (ih i)

theorem elemsTrimmed_removeIdx {l l' : List JValue} (h : ElemsTrimmed l l') (i : Nat) :
    ElemsTrimmed l (removeIdx l' i) := by
  induction h generalizing i with
  | nil => simpa [removeIdx] using ElemsTrimmed.nil
  | keep x h ih =>
    cases i with
    | zero => rw [removeIdx_cons_zero]; exact .drop x h
    | succ i' => rw [removeIdx_cons_succ]; exact .keep x (ih i')
  | mark x h ih =>
    cases i with
    | zero => rw [removeIdx_cons_zero]; exact .drop x h
    | succ i' => rw [removeIdx_cons_succ]; exact .mark x (ih i')
  | drop x h ih => exact .drop x (ih i)

theorem applyRemoval_arr_rel (t : Trimmer) {base cur : List JValue} (tok : String)
    (h : ElemsTrimmed base cur) :
    ∃ out, t.applyRemoval (.arr cur) tok = .arr out ∧ ElemsTrimmed base out := by
  unfold Trimmer.applyRemoval
  dsimp only
  split_ifs with h1
  · cases hscan : scanInt (tok.drop 4) with
    | none => exact ⟨cur, rfl, h⟩
    | some idx =>
      dsimp only
      split_ifs with h2 h3
      · exact ⟨_, rfl, elemsTrimmed_set_marker h idx.toNat⟩
      · exact ⟨_, rfl, elemsTrimmed_removeIdx h idx.toNat⟩
      · exact ⟨cur, rfl, h⟩
  · exact ⟨cur, rfl, h⟩

theorem enforceStep_some (t : Trimmer) {v v' : JValue} (h : t.enforceStep v = some v') :
    v' = t.applyRemoval v (t.strategy v) := by
  simp only [Trimmer.enforceStep] at h
  split_ifs at h
  simp_all

theorem enforceLoop_arr_rel (t : Trimmer) (fuel : Nat) {base cur : List JValue}
    (h : ElemsTrimmed base cur) :
    ∃ out, t.enforceLoop fuel (.arr cur) = .arr out ∧ ElemsTrimmed base out := by
  induction fuel generalizing cur with
  | zero => exact ⟨cur, rfl, h⟩
  | succ n ih =>
    rw [Trimmer.enforceLoop]
    cases hstep : t.enforceStep (.arr cur) with
    | none => exact ⟨cur, rfl, h⟩
    | some v' =>
      have hv' := enforceStep_some t hstep
      obtain ⟨out', hout', hrel'⟩ := applyRemoval_arr_rel t (t.strategy (.arr cur)) h
      rw [hv', hout']
      exact ih hrel'

theorem removeIdx_shifts (items : List JValue) (i j : Nat) :
    (removeIdx items i)[j]? = if j < i then items[j]? else items[j + 1]? := by
  induction items generalizing i j with
  | nil => simp [removeIdx]
  | cons x xs ih =>
    cases i with
    | zero => simp [removeIdx_cons_zero]
    | succ i' =>
      cases j with
      | zero => simp [removeIdx_cons_succ]
      | succ j' =>
        rw [removeIdx_cons_succ]
        simpa using ih i' j'

theorem stripItems_sublist (t : Trimmer) (items : List JValue) (path : List String) (i : Nat) :
    List.Sublist (t.stripItems items path i)
      (mapWithIdx (fun j x => t.stripRecursive x (path ++ [toString j])) i items) := by
  induction items generalizing i with
  | nil => simp [Trimmer.stripItems, mapWithIdx]
  | cons x xs ih =>
    rw [Trimmer.stripItems, mapWithIdx]
    cases hs : t.stripRecursive x (path ++ [toString i]) with
    | null => exact List.Sublist.cons _ (ih (i + 1))
    | bool b => exact List.Sublist.cons₂ _ (ih (i + 1))
    | num r => exact List.Sublist.cons₂ _ (ih (i + 1))
    | str s => exact List.Sublist.cons₂ _ (ih (i + 1))
    | obj entries => exact List.Sublist.cons₂ _ (ih (i + 1))
    | arr its => exact List.Sublist.cons₂ _ (ih (i + 1))

theorem trimItems_sublist (t : Trimmer) (items : List JValue) (d : Int) :
    List.Sublist (t.trimItems items d)
      (items.map (fun item => (t.keepChild (t.trimFields item (d + 1))).getD (.str Marker))) := by
  induction items with
  | nil => simp [Trimmer.trimItems]
  | cons x xs ih =>
    rw [Trimmer.trimItems, List.map_cons]
    cases hk : t.keepChild (t.trimFields x (d + 1)) with
    | none => exact List.Sublist.cons _ ih
    | some w => exact List.Sublist.cons₂ w ih


/-- C8: surviving array elements always keep their relative order.  The
total-enforcement loop only keeps, Marker-replaces, or deletes elements in
place (`ElemsTrimmed`); removing index `i` shifts every later element left
by one position; and for arrays both the blacklist stripper and the field
trimmer produce a sublist of the per-index processed items — no stage ever
swaps two surviving elements. -/
theorem array_order_preserved :
    (∀ (t : Trimmer) (fuel : Nat) (items : List JValue),
      ∃ out, t.enforceLoop fuel (.arr items) = .arr out ∧ ElemsTrimmed items out) ∧
    (∀ (items : List JValue) (i j : Nat),
      (removeIdx items i)[j]? = if j < i then items[j]? else items[j + 1]?) ∧
    (∀ (t : Trimmer) (items : List JValue) (path : List String) (i : Nat),
      List.Sublist (t.stripItems items path i)
        (mapWithIdx (fun j x => t.stripRecursive x (path ++ [toString j])) i items)) ∧
    (∀ (t : Trimmer) (items : List JValue) (d : Int),
      List.Sublist (t.trimItems items d)
        (items.map (fun item =>
          (t.keepChild (t.trimFields item (d + 1))).getD (.str Marker)))) :=
  ⟨fun t fuel items => enforceLoop_arr_rel t fuel (elemsTrimmed_refl items),
   removeIdx_shifts, stripItems_sublist, trimItems_sublist⟩

end Jsontrim
